import Mathlib

/-!
Shallow embedding of the mproc process-lifecycle orchestrator (Go package
mproc, file mproc.go) and verification of its specification.

Modelling choices, each tied to a line of the source:

* Go `error` values become the inductive `GoError`; `nil` is `Option.none`.
  `context.Canceled` and `context.DeadlineExceeded` are distinguished
  constructors; `fmt.Errorf("... - %w", err)` becomes `GoError.wrapped`,
  and `errors.Is(err, context.Canceled)` becomes `GoError.isCanceled`,
  which walks the wrap chain exactly as `errors.Is` does.
* `context.Context` values become the tree `Ctx`: `context.Background()`
  is `Ctx.background`, `context.WithCancel(parent)` is `Ctx.withCancel`,
  `context.WithTimeout(parent, d)` is `Ctx.withTimeout` with the duration
  as a `Nat` (nanoseconds). `Ctx.hasAncestor` says whether one context
  is derived from (or equal to) another, which is what determines whether
  cancelling the root reaches it.
* A `ManagedProcess` implementation becomes the structure `Proc`. Optional
  interfaces (type assertions in the Go code) become `Option` fields:
  `initImpl` holds the pair (result of Init, GetInitTimeout) when the
  `ManagedProcessWithInit` assertion succeeds, likewise `cleanupImpl`;
  `runTimeout` is `some d` when `ManagedProcessWithRunTimeout` holds;
  `signalAware` mirrors `ManagedProcessWithOnSignal`. `run i` is the
  outcome of the i-th invocation of Run (0-based); the single-shot
  controller only ever consults `run 0`.
* The observable behaviour of a call is its returned error together with
  a trace of phase invocations (`Event`), each recording the context the
  phase was given. The signal listener goroutine is sequential code once
  a signal arrives; it is embedded separately as `catchSignals`, returning
  the ordered trace of its three effects (`SigEvent`).
* The worker loop may not terminate, so `runWorkerLoop` takes fuel and
  returns `none` when the loop has not exited within that fuel. Signal
  delivery is modelled by `sigTime : Option Nat`: `some t` means the root
  context is cancelled during iteration t, so the `select` check after
  any iteration `i ≥ t` sees `ctx.Done()`; `none` means no signal is
  ever caught.
-/

namespace Mproc

/-- Go error values as seen by the orchestrator. -/
inductive GoError where
  | canceled
  | deadlineExceeded
  | errorString (msg : String)
  | wrapped (msg : String) (cause : GoError)
deriving DecidableEq, Repr

/-- `errors.Is(err, context.Canceled)`: true when the wrap chain bottoms
out at `context.Canceled`. -/
def GoError.isCanceled : GoError → Bool
  | .canceled => true
  | .wrapped _ e => e.isCanceled
  | _ => false

/-- Whether an error carries a wrapping layer at all. -/
def GoError.isWrapped : GoError → Bool
  | .wrapped _ _ => true
  | _ => false

/-- Cancellation-token tree mirroring the context package constructors
used by mproc. -/
inductive Ctx where
  | background
  | withCancel (parent : Ctx)
  | withTimeout (parent : Ctx) (d : Nat)
deriving DecidableEq, Repr

/-- `c.hasAncestor p`: `c` is `p` or is derived from `p`; cancelling `p`
cancels exactly the contexts with `p` as ancestor. -/
def Ctx.hasAncestor : Ctx → Ctx → Bool
  | .background, p => Ctx.background == p
  | .withCancel q, p => (Ctx.withCancel q == p) || q.hasAncestor p
  | .withTimeout q d, p => (Ctx.withTimeout q d == p) || q.hasAncestor p

/-- The root context of a run: `context.WithCancel(context.Background())`
created at the top of Run and RunWorker. -/
def rootCtx : Ctx := Ctx.withCancel Ctx.background

/-- One observable phase invocation, recording the context it received. -/
inductive Event where
  | initCall (c : Ctx)
  | runCall (i : Nat) (c : Ctx)
  | cleanupCall (c : Ctx)
deriving DecidableEq, Repr

def Event.isRunCall : Event → Bool
  | .runCall _ _ => true
  | _ => false

def Event.isInitCall : Event → Bool
  | .initCall _ => true
  | _ => false

def Event.isCleanupCall : Event → Bool
  | .cleanupCall _ => true
  | _ => false

def countRun (evs : List Event) : Nat := (evs.filter Event.isRunCall).length

def countInit (evs : List Event) : Nat := (evs.filter Event.isInitCall).length

def countCleanup (evs : List Event) : Nat := (evs.filter Event.isCleanupCall).length

/-- A work unit: the `ManagedProcess` implementation with its optional
interfaces resolved. -/
structure Proc where
  run : Nat → Option GoError
  runTimeout : Option Nat
  initImpl : Option (Option GoError × Nat)
  cleanupImpl : Option (Option GoError × Nat)
  signalAware : Bool

/-- Embeds `procInit`: if the unit implements Init, derive a child context
of `ctx` bounded by the init timeout, invoke Init, wrap any non-nil
error with the init-phase message. -/
def procInit (ctx : Ctx) (p : Proc) : Option GoError × List Event :=
  match p.initImpl with
  | some (res, d) =>
    let initCtx := Ctx.withTimeout ctx d
    match res with
    | some e => (some (GoError.wrapped "mproc: failed init - " e), [Event.initCall initCtx])
    | none => (none, [Event.initCall initCtx])
  | none => (none, [])

/-- Embeds `procCleanup`: if the unit implements Cleanup, create a fresh
context from Background bounded by the cleanup timeout, invoke Cleanup,
wrap any non-nil error with the cleanup-phase message. -/
def procCleanup (p : Proc) : Option GoError × List Event :=
  match p.cleanupImpl with
  | some (res, d) =>
    let ctx := Ctx.withTimeout Ctx.background d
    match res with
    | some e => (some (GoError.wrapped "mproc: failed cleanup - " e), [Event.cleanupCall ctx])
    | none => (none, [Event.cleanupCall ctx])
  | none => (none, [])

/-- The context the single-shot controller hands to Run: derived from the
root with the run timeout when `ManagedProcessWithRunTimeout` holds, the
root context itself otherwise. -/
def runCtxOf (p : Proc) : Ctx :=
  match p.runTimeout with
  | some d => Ctx.withTimeout rootCtx d
  | none => rootCtx

/-- Embeds `Run`: init (abort on its error), then the single Run call
under `runCtxOf p`, return the Run error unless it satisfies
`errors.Is(err, context.Canceled)`, then cleanup. -/
def Run (p : Proc) : Option GoError × List Event :=
  match procInit rootCtx p with
  | (some e, initEvs) => (some e, initEvs)
  | (none, initEvs) =>
    match p.run 0 with
    | some e =>
      if e.isCanceled then
        match procCleanup p with
        | (ce, cleanEvs) => (ce, initEvs ++ [Event.runCall 0 (runCtxOf p)] ++ cleanEvs)
      else
        (some e, initEvs ++ [Event.runCall 0 (runCtxOf p)])
    | none =>
      match procCleanup p with
      | (ce, cleanEvs) => (ce, initEvs ++ [Event.runCall 0 (runCtxOf p)] ++ cleanEvs)

/-- The per-iteration context of the worker loop:
`context.WithTimeout(context.Background(), impl.GetRunTimeout())`,
built afresh each iteration, never derived from the root. -/
def loopCtx (d : Nat) : Ctx := Ctx.withTimeout Ctx.background d

/-- Whether the `select` on `ctx.Done()` after iteration `i` observes the
root cancellation, given that a signal lands during iteration `sigTime`. -/
def ctxDoneAfter (sigTime : Option Nat) (i : Nat) : Bool :=
  match sigTime with
  | none => false
  | some t => t ≤ i

/-- Embeds the labelled loop of `RunWorker` starting at iteration `i`,
with explicit fuel: result `none` means the loop has not exited within
`fuel` iterations; `some (loopErr, evs)` gives the final `loopErr` and
the trace of Run invocations. Each iteration runs under `loopCtx d`,
breaks on a non-nil outcome, and otherwise checks the root context
between iterations. -/
def runWorkerLoop (p : Proc) (d : Nat) (sigTime : Option Nat) :
    Nat → Nat → Option (Option GoError × List Event)
  | 0, _ => none
  | fuel + 1, i =>
    match p.run i with
    | some e => some (some e, [Event.runCall i (loopCtx d)])
    | none =>
      if ctxDoneAfter sigTime i then
        some (none, [Event.runCall i (loopCtx d)])
      else
        match runWorkerLoop p d sigTime fuel (i + 1) with
        | none => none
        | some (r, evs) => some (r, Event.runCall i (loopCtx d) :: evs)

/-- Embeds `RunWorker`: init (abort on its error), then the loop (`d` is
the value of `GetRunTimeout`, mandatory for workers), then: a final
`loopErr` failing `errors.Is(loopErr, context.Canceled)` is returned
without cleanup; otherwise cleanup runs. `none` when the loop has not
exited within the fuel. -/
def RunWorker (p : Proc) (d : Nat) (sigTime : Option Nat) (fuel : Nat) :
    Option (Option GoError × List Event) :=
  match procInit rootCtx p with
  | (some e, initEvs) => some (some e, initEvs)
  | (none, initEvs) =>
    match runWorkerLoop p d sigTime fuel 0 with
    | none => none
    | some (loopErr, loopEvs) =>
      match loopErr with
      | some e =>
        if e.isCanceled then
          match procCleanup p with
          | (ce, cleanEvs) => some (ce, initEvs ++ loopEvs ++ cleanEvs)
        else
          some (some e, initEvs ++ loopEvs)
      | none =>
        match procCleanup p with
        | (ce, cleanEvs) => some (ce, initEvs ++ loopEvs ++ cleanEvs)

/-- The three effects of the signal listener once a signal arrives. -/
inductive SigEvent where
  | stopListening
  | onSignalCallback (sig : Nat)
  | cancelRoot
deriving DecidableEq, Repr

/-- Embeds `catchSignals` from the moment signal `sig` is received: the
body calls `signal.Stop(quit)` first, then the optional `OnSignal`
callback, and the `defer cancel()` registered at entry fires last, when
the function returns. The returned list is the order of effects. -/
def catchSignals (p : Proc) (sig : Nat) : List SigEvent :=
  [SigEvent.stopListening]
    ++ (if p.signalAware then [SigEvent.onSignalCallback sig] else [])
    ++ [SigEvent.cancelRoot]

/-- Iterations `i, i+1, ..., i+k` of the worker loop, each under the
fresh per-iteration context. -/
def runCalls (d : Nat) : Nat → Nat → List Event
  | i, 0 => [Event.runCall i (loopCtx d)]
  | i, k + 1 => Event.runCall i (loopCtx d) :: runCalls d (i + 1) k

/-- A Cleanable unit with a run timeout whose run phase always reports the
expired timeout (`context.DeadlineExceeded`). -/
def pTimeout : Proc :=
  ⟨fun _ => some GoError.deadlineExceeded, some 5, none, some (none, 7), false⟩

/-- A Cleanable unit whose run phase returns a genuine failure. -/
def pHard : Proc :=
  ⟨fun _ => some (GoError.errorString "boom"), none, none, some (none, 2), false⟩

/-- A unit whose Init reports the soft cancellation outcome; Cleanable. -/
def pInitFail : Proc :=
  ⟨fun _ => none, none, some (some GoError.canceled, 3), some (none, 1), false⟩

/-- The canonical five-iteration worker unit: success four times, then
the voluntary-cancellation sentinel; Cleanable with a clean Cleanup. -/
def pFive : Proc :=
  ⟨fun i => if i < 4 then none else some GoError.canceled, some 6, none,
    some (none, 3), false⟩

/-- An always-successful, signal-aware worker unit. -/
def pIdle : Proc := ⟨fun _ => none, some 5, none, none, true⟩

/-- The condition under which the controllers fall through to Cleanup
after the run phase: outcome nil, or errors.Is(outcome, context.Canceled)
(the negation of the return condition at the run check). -/
def fallsThrough : Option GoError → Bool
  | none => true
  | some e => e.isCanceled

/-- A Cleanable unit without run timeout whose run reports the expired
timeout. -/
def pTimeoutClean : Proc :=
  ⟨fun _ => some GoError.deadlineExceeded, none, none, some (none, 3), false⟩

/-- A Cleanable unit with a run timeout whose run immediately returns the
voluntary-cancellation sentinel. -/
def pSoftClean : Proc :=
  ⟨fun _ => some GoError.canceled, some 8, none, some (none, 4), false⟩

/-- A run-only unit whose run returns a genuine failure. -/
def pRunFail : Proc :=
  ⟨fun _ => some (GoError.errorString "boom"), none, none, none, false⟩

/-- A unit whose Init fails with a plain error. -/
def pInitWrap : Proc :=
  ⟨fun _ => none, none, some (some (GoError.errorString "ini"), 1), none, false⟩

/-- A unit whose run succeeds but whose Cleanup fails with a plain error. -/
def pCleanWrap : Proc :=
  ⟨fun _ => none, none, none, some (some (GoError.errorString "cln"), 2), false⟩

/-- A run-only unit whose run returns the voluntary-cancellation
sentinel. -/
def pCancelOnly : Proc :=
  ⟨fun _ => some GoError.canceled, none, none, none, false⟩

/-- A run-only unit whose run succeeds. -/
def pRunOnly : Proc := ⟨fun _ => none, none, none, none, false⟩

/-- A signal-aware run-only unit. -/
def pAware : Proc := ⟨fun _ => none, none, none, none, true⟩

/-- A worker unit whose run always succeeds. -/
def pForever : Proc := ⟨fun _ => none, some 9, none, some (none, 1), false⟩

theorem countRun_append (a b : List Event) :
    countRun (a ++ b) = countRun a + countRun b := by
  simp [countRun, List.filter_append]

theorem countInit_append (a b : List Event) :
    countInit (a ++ b) = countInit a + countInit b := by
  simp [countInit, List.filter_append]

theorem countCleanup_append (a b : List Event) :
    countCleanup (a ++ b) = countCleanup a + countCleanup b := by
  simp [countCleanup, List.filter_append]

theorem procInit_countRun (c : Ctx) (p : Proc) : countRun (procInit c p).2 = 0 := by
  rcases hi : p.initImpl with _ | ⟨res, d⟩
  · simp [procInit, hi]; rfl
  · rcases res with _ | e <;> simp [procInit, hi] <;> rfl

theorem procInit_countCleanup (c : Ctx) (p : Proc) :
    countCleanup (procInit c p).2 = 0 := by
  rcases hi : p.initImpl with _ | ⟨res, d⟩
  · simp [procInit, hi]; rfl
  · rcases res with _ | e <;> simp [procInit, hi] <;> rfl

theorem procInit_events (c : Ctx) (p : Proc) :
    ∀ ev ∈ (procInit c p).2, ev.isInitCall = true := by
  intro ev hev
  rcases hi : p.initImpl with _ | ⟨res, d⟩
  · simp [procInit, hi] at hev
  · rcases res with _ | e <;> simp [procInit, hi] at hev <;> simp [hev, Event.isInitCall]

theorem procCleanup_countRun (p : Proc) : countRun (procCleanup p).2 = 0 := by
  rcases hc : p.cleanupImpl with _ | ⟨res, d⟩
  · simp [procCleanup, hc]; rfl
  · rcases res with _ | e <;> simp [procCleanup, hc] <;> rfl

theorem procCleanup_countCleanup (p : Proc) :
    countCleanup (procCleanup p).2 = if p.cleanupImpl.isSome then 1 else 0 := by
  rcases hc : p.cleanupImpl with _ | ⟨res, d⟩
  · simp [procCleanup, hc]; rfl
  · rcases res with _ | e <;> simp [procCleanup, hc] <;> rfl

theorem procCleanup_events (p : Proc) (r : Option GoError) (dc : Nat)
    (hc : p.cleanupImpl = some (r, dc)) :
    (procCleanup p).2 = [Event.cleanupCall (Ctx.withTimeout Ctx.background dc)] := by
  rcases r with _ | e <;> simp [procCleanup, hc]

theorem runWorkerLoop_run_some (p : Proc) (d : Nat) (sigT : Option Nat) (fuel i : Nat)
    (e : GoError) (h : p.run i = some e) :
    runWorkerLoop p d sigT (fuel + 1) i = some (some e, [Event.runCall i (loopCtx d)]) := by
  simp [runWorkerLoop, h]

theorem runWorkerLoop_done (p : Proc) (d : Nat) (sigT : Option Nat) (fuel i : Nat)
    (h : p.run i = none) (h2 : ctxDoneAfter sigT i = true) :
    runWorkerLoop p d sigT (fuel + 1) i = some (none, [Event.runCall i (loopCtx d)]) := by
  simp [runWorkerLoop, h, h2]

theorem runWorkerLoop_continue (p : Proc) (d : Nat) (sigT : Option Nat) (fuel i : Nat)
    (h : p.run i = none) (h2 : ctxDoneAfter sigT i = false) :
    runWorkerLoop p d sigT (fuel + 1) i =
      match runWorkerLoop p d sigT fuel (i + 1) with
      | none => none
      | some (r, evs) => some (r, Event.runCall i (loopCtx d) :: evs) := by
  simp [runWorkerLoop, h, h2]

theorem runWorkerLoop_events (p : Proc) (d : Nat) (sigT : Option Nat) :
    ∀ fuel i r evs, runWorkerLoop p d sigT fuel i = some (r, evs) →
      ∀ ev ∈ evs, ∃ j, ev = Event.runCall j (loopCtx d) := by
  intro fuel
  induction fuel with
  | zero => intro i r evs h; simp [runWorkerLoop] at h
  | succ n ih =>
    intro i r evs h ev hev
    rcases hr : p.run i with _ | e
    · cases hd : ctxDoneAfter sigT i
      · rw [runWorkerLoop_continue p d sigT n i hr hd] at h
        rcases hrec : runWorkerLoop p d sigT n (i + 1) with _ | ⟨r2, evs2⟩
        · rw [hrec] at h; simp at h
        · rw [hrec] at h
          simp only [Option.some.injEq, Prod.mk.injEq] at h
          obtain ⟨hr2, hevs⟩ := h
          subst hevs
          rcases List.mem_cons.mp hev with hev1 | hev2
          · exact ⟨i, hev1⟩
          · exact ih (i + 1) r2 evs2 hrec ev hev2
      · rw [runWorkerLoop_done p d sigT n i hr hd] at h
        simp only [Option.some.injEq, Prod.mk.injEq] at h
        obtain ⟨hr2, hevs⟩ := h
        subst hevs
        simp only [List.mem_singleton] at hev
        exact ⟨i, hev⟩
    · rw [runWorkerLoop_run_some p d sigT n i e hr] at h
      simp only [Option.some.injEq, Prod.mk.injEq] at h
      obtain ⟨hr2, hevs⟩ := h
      subst hevs
      simp only [List.mem_singleton] at hev
      exact ⟨i, hev⟩

theorem runWorkerLoop_countCleanup (p : Proc) (d : Nat) (sigT : Option Nat)
    (fuel i : Nat) (r : Option GoError) (evs : List Event)
    (h : runWorkerLoop p d sigT fuel i = some (r, evs)) :
    countCleanup evs = 0 := by
  have hall := runWorkerLoop_events p d sigT fuel i r evs h
  have : evs.filter Event.isCleanupCall = [] := by
    rw [List.filter_eq_nil_iff]
    intro ev hev
    obtain ⟨j, rfl⟩ := hall ev hev
    simp [Event.isCleanupCall]
  simp [countCleanup, this]

theorem countRun_runCalls (d : Nat) : ∀ k i, countRun (runCalls d i k) = k + 1 := by
  intro k
  induction k with
  | zero => intro i; rfl
  | succ n ih =>
    intro i
    have step : countRun (runCalls d i (n + 1)) = countRun (runCalls d (i + 1) n) + 1 := by
      simp [runCalls, countRun, List.filter_cons, Event.isRunCall]
    rw [step, ih]

theorem runWorkerLoop_signal_exact (p : Proc) (d : Nat) (hrun : ∀ j, p.run j = none) :
    ∀ k i fuel, k + 1 ≤ fuel →
      runWorkerLoop p d (some (i + k)) fuel i = some (none, runCalls d i k) := by
  intro k
  induction k with
  | zero =>
    intro i fuel hf
    obtain ⟨m, rfl⟩ : ∃ m, fuel = m + 1 := ⟨fuel - 1, by omega⟩
    rw [runWorkerLoop_done p d _ m i (hrun i) (by simp [ctxDoneAfter])]
    rfl
  | succ n ih =>
    intro i fuel hf
    obtain ⟨m, rfl⟩ : ∃ m, fuel = m + 1 := ⟨fuel - 1, by omega⟩
    rw [runWorkerLoop_continue p d _ m i (hrun i) (by simp [ctxDoneAfter])]
    have hidx : i + (n + 1) = (i + 1) + n := by omega
    rw [hidx, ih (i + 1) m (by omega)]
    rfl

theorem runWorkerLoop_noSignal_none (p : Proc) (d : Nat) (hrun : ∀ j, p.run j = none) :
    ∀ fuel i, runWorkerLoop p d none fuel i = none := by
  intro fuel
  induction fuel with
  | zero => intro i; rfl
  | succ n ih =>
    intro i
    rw [runWorkerLoop_continue p d none n i (hrun i) rfl, ih (i + 1)]

theorem runWorkerLoop_exit_reason (p : Proc) (d : Nat) (sigT : Option Nat) :
    ∀ fuel i r evs, runWorkerLoop p d sigT fuel i = some (r, evs) →
      (∃ e, r = some e) ∨ ∃ t, sigT = some t := by
  intro fuel
  induction fuel with
  | zero => intro i r evs h; simp [runWorkerLoop] at h
  | succ n ih =>
    intro i r evs h
    rcases hr : p.run i with _ | e
    · cases hd : ctxDoneAfter sigT i
      · rw [runWorkerLoop_continue p d sigT n i hr hd] at h
        rcases hrec : runWorkerLoop p d sigT n (i + 1) with _ | ⟨r2, evs2⟩
        · rw [hrec] at h; simp at h
        · rw [hrec] at h
          simp only [Option.some.injEq, Prod.mk.injEq] at h
          obtain ⟨hr2, hevs⟩ := h
          subst hr2
          exact ih (i + 1) r2 evs2 hrec
      · right
        rcases hs : sigT with _ | t
        · rw [hs] at hd; simp [ctxDoneAfter] at hd
        · exact ⟨t, rfl⟩
    · rw [runWorkerLoop_run_some p d sigT n i e hr] at h
      simp only [Option.some.injEq, Prod.mk.injEq] at h
      exact Or.inl ⟨e, h.1.symm⟩

theorem countRun_initCall (c : Ctx) : countRun [Event.initCall c] = 0 := rfl

theorem countCleanup_initCall (c : Ctx) : countCleanup [Event.initCall c] = 0 := rfl

theorem countInit_runCall (i : Nat) (c : Ctx) : countInit [Event.runCall i c] = 0 := rfl

theorem countRun_runCall (i : Nat) (c : Ctx) : countRun [Event.runCall i c] = 1 := rfl

theorem countCleanup_runCall (i : Nat) (c : Ctx) : countCleanup [Event.runCall i c] = 0 := rfl

theorem countInit_cleanupCall (c : Ctx) : countInit [Event.cleanupCall c] = 0 := rfl

theorem countRun_cleanupCall (c : Ctx) : countRun [Event.cleanupCall c] = 0 := rfl

theorem countCleanup_cleanupCall (c : Ctx) : countCleanup [Event.cleanupCall c] = 1 := rfl

theorem Run_init_fail (p : Proc) (e : GoError) (ievs : List Event)
    (hpi : procInit rootCtx p = (some e, ievs)) :
    Run p = (some e, ievs) := by
  simp [Run, hpi]

theorem Run_hard (p : Proc) (e : GoError) (ievs : List Event)
    (hpi : procInit rootCtx p = (none, ievs))
    (hrun : p.run 0 = some e) (hhard : e.isCanceled = false) :
    Run p = (some e, ievs ++ [Event.runCall 0 (runCtxOf p)]) := by
  simp [Run, hpi, hrun, hhard]

theorem Run_soft (p : Proc) (e : GoError) (ievs : List Event)
    (ce : Option GoError) (cevs : List Event)
    (hpi : procInit rootCtx p = (none, ievs)) (hpc : procCleanup p = (ce, cevs))
    (hrun : p.run 0 = some e) (hsoft : e.isCanceled = true) :
    Run p = (ce, ievs ++ [Event.runCall 0 (runCtxOf p)] ++ cevs) := by
  simp [Run, hpi, hpc, hrun, hsoft]

theorem Run_ok (p : Proc) (ievs : List Event)
    (ce : Option GoError) (cevs : List Event)
    (hpi : procInit rootCtx p = (none, ievs)) (hpc : procCleanup p = (ce, cevs))
    (hrun : p.run 0 = none) :
    Run p = (ce, ievs ++ [Event.runCall 0 (runCtxOf p)] ++ cevs) := by
  simp [Run, hpi, hpc, hrun]

theorem RunWorker_hard (p : Proc) (d fuel : Nat) (sigT : Option Nat)
    (e : GoError) (ievs evs : List Event)
    (hpi : procInit rootCtx p = (none, ievs))
    (hloop : runWorkerLoop p d sigT fuel 0 = some (some e, evs))
    (hhard : e.isCanceled = false) :
    RunWorker p d sigT fuel = some (some e, ievs ++ evs) := by
  simp [RunWorker, hpi, hloop, hhard]

theorem RunWorker_soft (p : Proc) (d fuel : Nat) (sigT : Option Nat)
    (e : GoError) (ievs evs : List Event) (ce : Option GoError) (cevs : List Event)
    (hpi : procInit rootCtx p = (none, ievs)) (hpc : procCleanup p = (ce, cevs))
    (hloop : runWorkerLoop p d sigT fuel 0 = some (some e, evs))
    (hsoft : e.isCanceled = true) :
    RunWorker p d sigT fuel = some (ce, ievs ++ evs ++ cevs) := by
  simp [RunWorker, hpi, hpc, hloop, hsoft]

theorem RunWorker_ok (p : Proc) (d fuel : Nat) (sigT : Option Nat)
    (ievs evs : List Event) (ce : Option GoError) (cevs : List Event)
    (hpi : procInit rootCtx p = (none, ievs)) (hpc : procCleanup p = (ce, cevs))
    (hloop : runWorkerLoop p d sigT fuel 0 = some (none, evs)) :
    RunWorker p d sigT fuel = some (ce, ievs ++ evs ++ cevs) := by
  simp [RunWorker, hpi, hpc, hloop]

theorem RunWorker_init_fail (p : Proc) (d fuel : Nat) (sigT : Option Nat)
    (e : GoError) (ievs : List Event)
    (hpi : procInit rootCtx p = (some e, ievs)) :
    RunWorker p d sigT fuel = some (some e, ievs) := by
  simp [RunWorker, hpi]

theorem RunWorker_loop_stuck (p : Proc) (d fuel : Nat) (sigT : Option Nat)
    (ievs : List Event)
    (hpi : procInit rootCtx p = (none, ievs))
    (hloop : runWorkerLoop p d sigT fuel 0 = none) :
    RunWorker p d sigT fuel = none := by
  simp [RunWorker, hpi, hloop]

theorem countCleanup_of_init (p : Proc) (ievs : List Event)
    (hpi : procInit rootCtx p = (none, ievs)) : countCleanup ievs = 0 := by
  have h := procInit_countCleanup rootCtx p
  rw [hpi] at h
  exact h

theorem countRun_of_init (p : Proc) (ievs : List Event)
    (hpi : procInit rootCtx p = (none, ievs)) : countRun ievs = 0 := by
  have h := procInit_countRun rootCtx p
  rw [hpi] at h
  exact h

/-- Claim C1 counterexample: for a Cleanable unit whose run phase returns
`context.DeadlineExceeded`, both `Run` and `RunWorker` return that error
and never invoke Cleanup, so the timeout-expired outcome is NOT treated
as soft: the claim fails at this input. -/
theorem timeout_soft_counterexample :
    pTimeout.cleanupImpl.isSome = true ∧
    pTimeout.run 0 = some GoError.deadlineExceeded ∧
    Run pTimeout =
      (some GoError.deadlineExceeded, [Event.runCall 0 (Ctx.withTimeout rootCtx 5)]) ∧
    RunWorker pTimeout 5 none 10 =
      some (some GoError.deadlineExceeded, [Event.runCall 0 (loopCtx 5)]) ∧
    countCleanup [Event.runCall 0 (Ctx.withTimeout rootCtx 5)] = 0 ∧
    countCleanup [Event.runCall 0 (loopCtx 5)] = 0 :=
  ⟨rfl, rfl, rfl, rfl, rfl, rfl⟩

/-- Claim C1 (amended): only the voluntary-cancellation sentinel
(`context.Canceled`) is soft; when the run phase returns
`context.DeadlineExceeded`, both `Run` and `RunWorker` treat it as hard:
Cleanup is skipped and the error is returned to the caller. -/
theorem deadline_exceeded_is_hard (p : Proc) (d fuel : Nat) (sigT : Option Nat)
    (ievs : List Event)
    (hpi : procInit rootCtx p = (none, ievs))
    (hrun : p.run 0 = some GoError.deadlineExceeded) :
    (Run p).1 = some GoError.deadlineExceeded ∧
    countCleanup (Run p).2 = 0 ∧
    RunWorker p d sigT (fuel + 1) =
      some (some GoError.deadlineExceeded, ievs ++ [Event.runCall 0 (loopCtx d)]) ∧
    countCleanup (ievs ++ [Event.runCall 0 (loopCtx d)]) = 0 := by
  have hR := Run_hard p GoError.deadlineExceeded ievs hpi hrun rfl
  have hloop := runWorkerLoop_run_some p d sigT fuel 0 GoError.deadlineExceeded hrun
  have hW := RunWorker_hard p d (fuel + 1) sigT GoError.deadlineExceeded ievs
    [Event.runCall 0 (loopCtx d)] hpi hloop rfl
  have hcc : countCleanup (ievs ++ [Event.runCall 0 (loopCtx d)]) = 0 := by
    rw [countCleanup_append, countCleanup_of_init p ievs hpi, countCleanup_runCall]
  refine ⟨by rw [hR], ?_, hW, hcc⟩
  rw [hR]
  rw [countCleanup_append, countCleanup_of_init p ievs hpi, countCleanup_runCall]

/-- Witness for the amended C1 theorem at the concrete unit pTimeout. -/
theorem deadline_exceeded_is_hard_witness :
    (Run pTimeout).1 = some GoError.deadlineExceeded ∧
    countCleanup (Run pTimeout).2 = 0 ∧
    RunWorker pTimeout 5 none 10 =
      some (some GoError.deadlineExceeded, [] ++ [Event.runCall 0 (loopCtx 5)]) ∧
    countCleanup ([] ++ [Event.runCall 0 (loopCtx 5)]) = 0 :=
  deadline_exceeded_is_hard pTimeout 5 9 none [] rfl rfl

/-- Claim C2: if the run operation invoked by `Run` returns a hard failure
(non-nil and not satisfying errors.Is(err, context.Canceled)), Cleanup is
never invoked and the failure is returned to the caller unmodified. -/
theorem run_hard_failure_skips_cleanup (p : Proc) (e : GoError) (ievs : List Event)
    (hpi : procInit rootCtx p = (none, ievs))
    (hrun : p.run 0 = some e)
    (hhard : e.isCanceled = false) :
    (Run p).1 = some e ∧ countCleanup (Run p).2 = 0 := by
  have hR := Run_hard p e ievs hpi hrun hhard
  rw [hR]
  exact ⟨rfl, by
    rw [countCleanup_append, countCleanup_of_init p ievs hpi, countCleanup_runCall]⟩

/-- Witness for the C2 theorem at the concrete Cleanable unit pHard. -/
theorem run_hard_failure_skips_cleanup_witness :
    (Run pHard).1 = some (GoError.errorString "boom") ∧
    countCleanup (Run pHard).2 = 0 :=
  run_hard_failure_skips_cleanup pHard (GoError.errorString "boom") [] rfl rfl rfl

/-- Claim C3: if Init returns any non-nil outcome, the run operation and
Cleanup are never invoked (the trace is exactly the one Init call), and
both `Run` and `RunWorker` return the error wrapped with the
init-phase message. -/
theorem init_failure_aborts (p : Proc) (e : GoError) (d d2 fuel : Nat) (sigT : Option Nat)
    (hinit : p.initImpl = some (some e, d)) :
    Run p = (some (GoError.wrapped "mproc: failed init - " e),
      [Event.initCall (Ctx.withTimeout rootCtx d)]) ∧
    RunWorker p d2 sigT fuel = some (some (GoError.wrapped "mproc: failed init - " e),
      [Event.initCall (Ctx.withTimeout rootCtx d)]) ∧
    countRun [Event.initCall (Ctx.withTimeout rootCtx d)] = 0 ∧
    countCleanup [Event.initCall (Ctx.withTimeout rootCtx d)] = 0 := by
  have hpi : procInit rootCtx p =
      (some (GoError.wrapped "mproc: failed init - " e),
        [Event.initCall (Ctx.withTimeout rootCtx d)]) := by
    simp [procInit, hinit]
  exact ⟨Run_init_fail p _ _ hpi, RunWorker_init_fail p d2 fuel sigT _ _ hpi,
    countRun_initCall _, countCleanup_initCall _⟩

/-- Witness for the C3 theorem at the concrete unit pInitFail: even the
soft cancellation outcome from Init aborts the whole call. -/
theorem init_failure_aborts_witness :
    Run pInitFail = (some (GoError.wrapped "mproc: failed init - " GoError.canceled),
      [Event.initCall (Ctx.withTimeout rootCtx 3)]) ∧
    RunWorker pInitFail 4 none 7 =
      some (some (GoError.wrapped "mproc: failed init - " GoError.canceled),
        [Event.initCall (Ctx.withTimeout rootCtx 3)]) ∧
    countRun [Event.initCall (Ctx.withTimeout rootCtx 3)] = 0 ∧
    countCleanup [Event.initCall (Ctx.withTimeout rootCtx 3)] = 0 :=
  init_failure_aborts pInitFail GoError.canceled 3 4 7 none rfl

theorem countRun_of_cleanup (p : Proc) (ce : Option GoError) (cevs : List Event)
    (hpc : procCleanup p = (ce, cevs)) : countRun cevs = 0 := by
  have h := procCleanup_countRun p
  rw [hpc] at h
  exact h

theorem countCleanup_of_cleanup (p : Proc) (ce : Option GoError) (cevs : List Event)
    (hpc : procCleanup p = (ce, cevs)) :
    countCleanup cevs = if p.cleanupImpl.isSome then 1 else 0 := by
  have h := procCleanup_countCleanup p
  rw [hpc] at h
  exact h

/-- Claim C4: in worker mode, a unit whose run returns success on the
first four iterations and the voluntary-cancellation sentinel on the
fifth, with no signal caught and a well-behaved Cleanup, makes the loop
invoke run exactly 5 times, then Cleanup exactly once when Cleanable,
and `RunWorker` returns no error. -/
theorem worker_five_iterations (p : Proc) (d fuel : Nat) (ievs : List Event)
    (ce : Option GoError) (cevs : List Event)
    (hpi : procInit rootCtx p = (none, ievs))
    (hpc : procCleanup p = (ce, cevs))
    (hrun4 : ∀ i, i < 4 → p.run i = none)
    (hrun5 : p.run 4 = some GoError.canceled)
    (hclean : ∀ r t2, p.cleanupImpl = some (r, t2) → r = none)
    (hfuel : 5 ≤ fuel) :
    RunWorker p d none fuel = some (none, ievs ++ runCalls d 0 4 ++ cevs) ∧
    countRun (ievs ++ runCalls d 0 4 ++ cevs) = 5 ∧
    countCleanup (ievs ++ runCalls d 0 4 ++ cevs) =
      (if p.cleanupImpl.isSome then 1 else 0) := by
  obtain ⟨k, rfl⟩ : ∃ k, fuel = k + 1 + 1 + 1 + 1 + 1 := ⟨fuel - 5, by omega⟩
  have l4 : runWorkerLoop p d none (k + 1) 4 =
      some (some GoError.canceled, [Event.runCall 4 (loopCtx d)]) :=
    runWorkerLoop_run_some p d none k 4 GoError.canceled hrun5
  have l3 : runWorkerLoop p d none (k + 1 + 1) 3 =
      some (some GoError.canceled,
        [Event.runCall 3 (loopCtx d), Event.runCall 4 (loopCtx d)]) := by
    rw [runWorkerLoop_continue p d none (k + 1) 3 (hrun4 3 (by omega)) rfl, l4]
  have l2 : runWorkerLoop p d none (k + 1 + 1 + 1) 2 =
      some (some GoError.canceled,
        [Event.runCall 2 (loopCtx d), Event.runCall 3 (loopCtx d),
          Event.runCall 4 (loopCtx d)]) := by
    rw [runWorkerLoop_continue p d none (k + 1 + 1) 2 (hrun4 2 (by omega)) rfl, l3]
  have l1 : runWorkerLoop p d none (k + 1 + 1 + 1 + 1) 1 =
      some (some GoError.canceled,
        [Event.runCall 1 (loopCtx d), Event.runCall 2 (loopCtx d),
          Event.runCall 3 (loopCtx d), Event.runCall 4 (loopCtx d)]) := by
    rw [runWorkerLoop_continue p d none (k + 1 + 1 + 1) 1 (hrun4 1 (by omega)) rfl, l2]
  have l0 : runWorkerLoop p d none (k + 1 + 1 + 1 + 1 + 1) 0 =
      some (some GoError.canceled, runCalls d 0 4) := by
    rw [runWorkerLoop_continue p d none (k + 1 + 1 + 1 + 1) 0 (hrun4 0 (by omega)) rfl, l1]
    rfl
  have hce : ce = none := by
    rcases hcl : p.cleanupImpl with _ | ⟨r, t2⟩
    · have h2 : procCleanup p = (none, []) := by simp [procCleanup, hcl]
      rw [hpc] at h2
      exact congrArg Prod.fst h2
    · have hr : r = none := hclean r t2 hcl
      subst hr
      have h2 : procCleanup p =
          (none, [Event.cleanupCall (Ctx.withTimeout Ctx.background t2)]) := by
        simp [procCleanup, hcl]
      rw [hpc] at h2
      exact congrArg Prod.fst h2
  subst hce
  refine ⟨RunWorker_soft p d (k + 1 + 1 + 1 + 1 + 1) none GoError.canceled
      ievs (runCalls d 0 4) none cevs hpi hpc l0 rfl, ?_, ?_⟩
  · rw [countRun_append, countRun_append, countRun_of_init p ievs hpi,
      countRun_of_cleanup p none cevs hpc, countRun_runCalls]
  · rw [countCleanup_append, countCleanup_append, countCleanup_of_init p ievs hpi,
      countCleanup_of_cleanup p none cevs hpc]
    have hrc : countCleanup (runCalls d 0 4) = 0 := rfl
    rw [hrc]
    omega

/-- Witness for the C4 theorem at the concrete unit pFive. -/
theorem worker_five_iterations_witness :
    RunWorker pFive 6 none 9 =
      some (none, [] ++ runCalls 6 0 4 ++
        [Event.cleanupCall (Ctx.withTimeout Ctx.background 3)]) ∧
    countRun ([] ++ runCalls 6 0 4 ++
      [Event.cleanupCall (Ctx.withTimeout Ctx.background 3)]) = 5 ∧
    countCleanup ([] ++ runCalls 6 0 4 ++
      [Event.cleanupCall (Ctx.withTimeout Ctx.background 3)]) =
      (if pFive.cleanupImpl.isSome then 1 else 0) :=
  worker_five_iterations pFive 6 9 [] none
    [Event.cleanupCall (Ctx.withTimeout Ctx.background 3)] rfl rfl
    (fun i hi => by simp only [pFive]; rw [if_pos hi])
    rfl
    (fun r t2 h => by
      simp only [pFive, Option.some.injEq, Prod.mk.injEq] at h
      exact h.1.symm)
    (by omega)

/-- Claim C5: every worker-loop iteration receives the fresh context
`loopCtx d`, built from Background with the full run timeout, which is
not derived from the root context (so a signal cancelling the root never
cancels an in-flight iteration token); and a signal landing during
iteration t is only observed by the between-iterations check: iterations
0..t all run to completion and the loop then exits with a nil outcome. -/
theorem worker_fresh_token_per_iteration (p : Proc) (d t fuel j : Nat)
    (sigT : Option Nat) (r : Option GoError) (evs : List Event) (c : Ctx)
    (hrun : ∀ i, p.run i = none)
    (hfuel : t + 1 ≤ fuel)
    (hloop : runWorkerLoop p d sigT fuel 0 = some (r, evs))
    (hmem : Event.runCall j c ∈ evs) :
    c = loopCtx d ∧
    c.hasAncestor rootCtx = false ∧
    runWorkerLoop p d (some t) fuel 0 = some (none, runCalls d 0 t) ∧
    countRun (runCalls d 0 t) = t + 1 := by
  obtain ⟨j2, hev⟩ := runWorkerLoop_events p d sigT fuel 0 r evs hloop _ hmem
  injection hev with h1 h2
  subst h2
  refine ⟨rfl, ?_, ?_, countRun_runCalls d t 0⟩
  · simp [loopCtx, rootCtx, Ctx.hasAncestor]
  · have h := runWorkerLoop_signal_exact p d hrun t 0 fuel hfuel
    simpa using h

/-- Witness for the C5 theorem at the concrete unit pIdle, signal during
iteration 3, fuel 7, inspecting the token of iteration 2. -/
theorem worker_fresh_token_per_iteration_witness :
    loopCtx 5 = loopCtx 5 ∧
    (loopCtx 5).hasAncestor rootCtx = false ∧
    runWorkerLoop pIdle 5 (some 3) 7 0 = some (none, runCalls 5 0 3) ∧
    countRun (runCalls 5 0 3) = 3 + 1 :=
  worker_fresh_token_per_iteration pIdle 5 3 7 2 (some 3) none
    (runCalls 5 0 3) (loopCtx 5) (fun i => rfl) (by omega) rfl (by decide)

/-- Claim C6 counterexample: a Cleanable unit whose run phase ends with
the timeout-expired outcome, a soft outcome in the taxonomy of the spec:
Cleanup is not invoked at all, so the claim fails at this input. -/
theorem cleanup_soft_counterexample :
    pTimeoutClean.cleanupImpl.isSome = true ∧
    pTimeoutClean.run 0 = some GoError.deadlineExceeded ∧
    Run pTimeoutClean = (some GoError.deadlineExceeded, [Event.runCall 0 rootCtx]) ∧
    countCleanup (Run pTimeoutClean).2 = 0 :=
  ⟨rfl, rfl, rfl, rfl⟩

/-- Claim C6 (amended): for a Cleanable unit, whenever the run phase ends
with success or the voluntary-cancellation sentinel (in Run, or as the
final loop outcome in RunWorker), Cleanup is invoked exactly once, under
the fresh context built from Background with the cleanup timeout, which
is independent of the root context and of the run context. -/
theorem cleanup_fresh_token (p : Proc) (r2 loopR : Option GoError)
    (dc d fuel : Nat) (sigT : Option Nat) (ievs loopEvs : List Event)
    (hpi : procInit rootCtx p = (none, ievs))
    (hclean : p.cleanupImpl = some (r2, dc))
    (hrun : fallsThrough (p.run 0) = true)
    (hloop : runWorkerLoop p d sigT fuel 0 = some (loopR, loopEvs))
    (hsoft : fallsThrough loopR = true) :
    Run p = ((procCleanup p).1, ievs ++ [Event.runCall 0 (runCtxOf p)] ++
      [Event.cleanupCall (Ctx.withTimeout Ctx.background dc)]) ∧
    countCleanup (Run p).2 = 1 ∧
    (Ctx.withTimeout Ctx.background dc).hasAncestor rootCtx = false ∧
    (Ctx.withTimeout Ctx.background dc).hasAncestor (runCtxOf p) = false ∧
    RunWorker p d sigT fuel = some ((procCleanup p).1, ievs ++ loopEvs ++
      [Event.cleanupCall (Ctx.withTimeout Ctx.background dc)]) ∧
    countCleanup (ievs ++ loopEvs ++
      [Event.cleanupCall (Ctx.withTimeout Ctx.background dc)]) = 1 := by
  rcases hpc : procCleanup p with ⟨ce, cevs⟩
  have hcevs : cevs = [Event.cleanupCall (Ctx.withTimeout Ctx.background dc)] := by
    have h := procCleanup_events p r2 dc hclean
    rw [hpc] at h
    exact h
  subst hcevs
  have hce1 : (procCleanup p).1 = ce := by rw [hpc]
  have hR : Run p = (ce, ievs ++ [Event.runCall 0 (runCtxOf p)] ++
      [Event.cleanupCall (Ctx.withTimeout Ctx.background dc)]) := by
    rcases hr : p.run 0 with _ | e
    · exact Run_ok p ievs ce _ hpi hpc hr
    · have hsft : e.isCanceled = true := by
        have h := hrun
        rw [hr] at h
        exact h
      exact Run_soft p e ievs ce _ hpi hpc hr hsft
  have hW : RunWorker p d sigT fuel = some (ce, ievs ++ loopEvs ++
      [Event.cleanupCall (Ctx.withTimeout Ctx.background dc)]) := by
    rcases hlr : loopR with _ | e
    · rw [hlr] at hloop
      exact RunWorker_ok p d fuel sigT ievs loopEvs ce _ hpi hpc hloop
    · rw [hlr] at hloop
      have hsft : e.isCanceled = true := by
        have h := hsoft
        rw [hlr] at h
        exact h
      exact RunWorker_soft p d fuel sigT e ievs loopEvs ce _ hpi hpc hloop hsft
  have hcW : countCleanup (ievs ++ loopEvs ++
      [Event.cleanupCall (Ctx.withTimeout Ctx.background dc)]) = 1 := by
    rw [countCleanup_append, countCleanup_append, countCleanup_of_init p ievs hpi,
      runWorkerLoop_countCleanup p d sigT fuel 0 loopR loopEvs hloop,
      countCleanup_cleanupCall]
  refine ⟨by rw [hR], ?_, ?_, ?_, by rw [hW], hcW⟩
  · rw [hR]
    rw [countCleanup_append, countCleanup_append, countCleanup_of_init p ievs hpi,
      countCleanup_runCall, countCleanup_cleanupCall]
  · simp [Ctx.hasAncestor, rootCtx]
  · rcases hrt : p.runTimeout with _ | dd <;>
      simp [runCtxOf, hrt, Ctx.hasAncestor, rootCtx]

/-- Witness for the amended C6 theorem at the concrete unit pSoftClean. -/
theorem cleanup_fresh_token_witness :
    Run pSoftClean = ((procCleanup pSoftClean).1,
      [] ++ [Event.runCall 0 (runCtxOf pSoftClean)] ++
      [Event.cleanupCall (Ctx.withTimeout Ctx.background 4)]) ∧
    countCleanup (Run pSoftClean).2 = 1 ∧
    (Ctx.withTimeout Ctx.background 4).hasAncestor rootCtx = false ∧
    (Ctx.withTimeout Ctx.background 4).hasAncestor (runCtxOf pSoftClean) = false ∧
    RunWorker pSoftClean 8 none 3 = some ((procCleanup pSoftClean).1,
      [] ++ [Event.runCall 0 (loopCtx 8)] ++
      [Event.cleanupCall (Ctx.withTimeout Ctx.background 4)]) ∧
    countCleanup ([] ++ [Event.runCall 0 (loopCtx 8)] ++
      [Event.cleanupCall (Ctx.withTimeout Ctx.background 4)]) = 1 :=
  cleanup_fresh_token pSoftClean none (some GoError.canceled) 4 8 3 none
    [] [Event.runCall 0 (loopCtx 8)] rfl rfl rfl rfl rfl

/-- Claim C7 counterexample: a run-phase failure is returned by both Run
and RunWorker with no wrapping at all, hence without any context
identifying the run phase: the claim fails at this input. -/
theorem error_wrapping_counterexample :
    (Run pRunFail).1 = some (GoError.errorString "boom") ∧
    GoError.isWrapped (GoError.errorString "boom") = false ∧
    RunWorker pRunFail 5 none 8 =
      some (some (GoError.errorString "boom"), [Event.runCall 0 (loopCtx 5)]) :=
  ⟨rfl, rfl, rfl⟩

/-- Claim C7 (amended): init failures are returned wrapped with the
init-phase message and cleanup failures with the cleanup-phase message,
each preserving the underlying cause, in both Run and RunWorker; a
run-phase failure is returned as-is, with no wrapping added. -/
theorem error_wrapping_per_phase (p1 p2 p3 : Proc) (e1 e2 e3 : GoError)
    (d dc d2 fuel : Nat) (sigT : Option Nat) (ievs2 ievs3 : List Event)
    (h1 : p1.initImpl = some (some e1, d))
    (h2i : procInit rootCtx p2 = (none, ievs2))
    (h2r : p2.run 0 = some e2)
    (h2h : e2.isCanceled = false)
    (h3i : procInit rootCtx p3 = (none, ievs3))
    (h3r : p3.run 0 = none)
    (h3c : p3.cleanupImpl = some (some e3, dc)) :
    (Run p1).1 = some (GoError.wrapped "mproc: failed init - " e1) ∧
    RunWorker p1 d2 sigT fuel = some (some (GoError.wrapped "mproc: failed init - " e1),
      [Event.initCall (Ctx.withTimeout rootCtx d)]) ∧
    (Run p2).1 = some e2 ∧
    RunWorker p2 d2 sigT (fuel + 1) =
      some (some e2, ievs2 ++ [Event.runCall 0 (loopCtx d2)]) ∧
    (Run p3).1 = some (GoError.wrapped "mproc: failed cleanup - " e3) ∧
    RunWorker p3 d2 (some 0) (fuel + 1) =
      some (some (GoError.wrapped "mproc: failed cleanup - " e3),
        ievs3 ++ [Event.runCall 0 (loopCtx d2)] ++
        [Event.cleanupCall (Ctx.withTimeout Ctx.background dc)]) := by
  have hpi1 : procInit rootCtx p1 =
      (some (GoError.wrapped "mproc: failed init - " e1),
        [Event.initCall (Ctx.withTimeout rootCtx d)]) := by
    simp [procInit, h1]
  have hpc3 : procCleanup p3 =
      (some (GoError.wrapped "mproc: failed cleanup - " e3),
        [Event.cleanupCall (Ctx.withTimeout Ctx.background dc)]) := by
    simp [procCleanup, h3c]
  have hloop2 := runWorkerLoop_run_some p2 d2 sigT fuel 0 e2 h2r
  have hloop3 : runWorkerLoop p3 d2 (some 0) (fuel + 1) 0 =
      some (none, [Event.runCall 0 (loopCtx d2)]) :=
    runWorkerLoop_done p3 d2 (some 0) fuel 0 h3r rfl
  refine ⟨?_, RunWorker_init_fail p1 d2 fuel sigT _ _ hpi1, ?_,
    RunWorker_hard p2 d2 (fuel + 1) sigT e2 ievs2 _ h2i hloop2 h2h, ?_,
    RunWorker_ok p3 d2 (fuel + 1) (some 0) ievs3 _ _ _ h3i hpc3 hloop3⟩
  · rw [Run_init_fail p1 _ _ hpi1]
  · rw [Run_hard p2 e2 ievs2 h2i h2r h2h]
  · rw [Run_ok p3 ievs3 _ _ h3i hpc3 h3r]

/-- Witness for the amended C7 theorem at three concrete units failing in
the init, run and cleanup phases respectively. -/
theorem error_wrapping_per_phase_witness :
    (Run pInitWrap).1 =
      some (GoError.wrapped "mproc: failed init - " (GoError.errorString "ini")) ∧
    RunWorker pInitWrap 5 none 3 =
      some (some (GoError.wrapped "mproc: failed init - " (GoError.errorString "ini")),
        [Event.initCall (Ctx.withTimeout rootCtx 1)]) ∧
    (Run pRunFail).1 = some (GoError.errorString "boom") ∧
    RunWorker pRunFail 5 none 4 =
      some (some (GoError.errorString "boom"), [] ++ [Event.runCall 0 (loopCtx 5)]) ∧
    (Run pCleanWrap).1 =
      some (GoError.wrapped "mproc: failed cleanup - " (GoError.errorString "cln")) ∧
    RunWorker pCleanWrap 5 (some 0) 4 =
      some (some (GoError.wrapped "mproc: failed cleanup - " (GoError.errorString "cln")),
        [] ++ [Event.runCall 0 (loopCtx 5)] ++
        [Event.cleanupCall (Ctx.withTimeout Ctx.background 2)]) :=
  error_wrapping_per_phase pInitWrap pRunFail pCleanWrap
    (GoError.errorString "ini") (GoError.errorString "boom") (GoError.errorString "cln")
    1 2 5 3 none [] [] rfl rfl rfl rfl rfl rfl rfl

/-- Claim C8 counterexample: a unit implementing only Runnable whose run
returns the non-nil sentinel context.Canceled, yet Run returns no error:
the claimed equivalence fails at this input. -/
theorem run_only_counterexample :
    pCancelOnly.initImpl = none ∧
    pCancelOnly.cleanupImpl = none ∧
    pCancelOnly.runTimeout = none ∧
    pCancelOnly.run 0 = some GoError.canceled ∧
    (pCancelOnly.run 0).isSome = true ∧
    (Run pCancelOnly).1 = none :=
  ⟨rfl, rfl, rfl, rfl, rfl, rfl⟩

/-- Claim C8 (amended): for a unit implementing only Runnable, Run returns
no error if and only if run returns success or an outcome satisfying
errors.Is(outcome, context.Canceled); no init or cleanup operation is
invoked during the call. -/
theorem run_only_iff (p : Proc)
    (hi : p.initImpl = none) (hc : p.cleanupImpl = none)
    (hrt : p.runTimeout = none) :
    ((Run p).1 = none ↔ fallsThrough (p.run 0) = true) ∧
    countInit (Run p).2 = 0 ∧
    countCleanup (Run p).2 = 0 := by
  have hpi : procInit rootCtx p = (none, []) := by simp [procInit, hi]
  have hpc : procCleanup p = (none, []) := by simp [procCleanup, hc]
  rcases hr : p.run 0 with _ | e
  · rw [Run_ok p [] none [] hpi hpc hr]
    exact ⟨by simp [fallsThrough, hr], rfl, rfl⟩
  · rcases he : e.isCanceled
    · rw [Run_hard p e [] hpi hr he]
      refine ⟨?_, rfl, rfl⟩
      simp [fallsThrough, hr, he]
    · rw [Run_soft p e [] none [] hpi hpc hr he]
      exact ⟨by simp [fallsThrough, hr, he], rfl, rfl⟩

/-- Witness for the amended C8 theorem at the concrete unit pRunOnly. -/
theorem run_only_iff_witness :
    ((Run pRunOnly).1 = none ↔ fallsThrough (pRunOnly.run 0) = true) ∧
    countInit (Run pRunOnly).2 = 0 ∧
    countCleanup (Run pRunOnly).2 = 0 :=
  run_only_iff pRunOnly rfl rfl rfl

/-- Claim C9 counterexample: for a SignalAware unit, the actual order of
listener effects on the first signal is stop-listening, then the
callback, then cancel-root; it is not the claimed order cancel-root,
callback, stop-listening. -/
theorem signal_order_counterexample :
    pAware.signalAware = true ∧
    catchSignals pAware 2 =
      [SigEvent.stopListening, SigEvent.onSignalCallback 2, SigEvent.cancelRoot] ∧
    (catchSignals pAware 2 ==
      [SigEvent.cancelRoot, SigEvent.onSignalCallback 2, SigEvent.stopListening]) = false :=
  ⟨rfl, rfl, rfl⟩

/-- Claim C9 (amended): on receipt of the first configured signal the
listener (a) stops listening first, so a second occurrence of the signal
receives default OS handling, then (b) invokes the callback synchronously
with the caught signal identifier when the unit is SignalAware, and
(c) cancels the root token last, via the deferred cancel that fires when
the listener returns; per run the root token is cancelled by the listener
exactly once and the callback is invoked at most once. -/
theorem catchSignals_order (p : Proc) (sig : Nat) :
    catchSignals p sig =
      SigEvent.stopListening ::
        ((if p.signalAware then [SigEvent.onSignalCallback sig] else []) ++
          [SigEvent.cancelRoot]) ∧
    (catchSignals p sig).head? = some SigEvent.stopListening ∧
    (catchSignals p sig).getLast? = some SigEvent.cancelRoot ∧
    (catchSignals p sig).count SigEvent.cancelRoot = 1 ∧
    (catchSignals p sig).count (SigEvent.onSignalCallback sig) =
      (if p.signalAware then 1 else 0) := by
  rcases hs : p.signalAware <;>
    simp [catchSignals, hs, List.count_cons, List.getLast?]

theorem runWorkerLoop_result_none (p : Proc) (d : Nat) (sigT : Option Nat)
    (hrun : ∀ j, p.run j = none) :
    ∀ fuel i r evs, runWorkerLoop p d sigT fuel i = some (r, evs) → r = none := by
  intro fuel
  induction fuel with
  | zero => intro i r evs h; simp [runWorkerLoop] at h
  | succ n ih =>
    intro i r evs h
    cases hd : ctxDoneAfter sigT i
    · rw [runWorkerLoop_continue p d sigT n i (hrun i) hd] at h
      rcases hrec : runWorkerLoop p d sigT n (i + 1) with _ | ⟨r2, evs2⟩
      · rw [hrec] at h; simp at h
      · rw [hrec] at h
        simp only [Option.some.injEq, Prod.mk.injEq] at h
        obtain ⟨h1, h2⟩ := h
        subst h1
        exact ih (i + 1) _ evs2 hrec
    · rw [runWorkerLoop_done p d sigT n i (hrun i) hd] at h
      simp only [Option.some.injEq, Prod.mk.injEq] at h
      exact h.1.symm

/-- Claim C10: for a unit whose run always returns nil, the worker loop
never exits when no signal is ever caught (for every fuel bound it is
still running, so RunWorker never returns), and any exit of the loop
implies a signal was delivered: the loop leaves only on a non-nil
outcome or on root cancellation. -/
theorem worker_loop_unbounded (p : Proc) (d fuel i : Nat) (sigT : Option Nat)
    (r : Option GoError) (evs ievs : List Event)
    (hpi : procInit rootCtx p = (none, ievs))
    (hrun : ∀ j, p.run j = none)
    (hloop : runWorkerLoop p d sigT fuel i = some (r, evs)) :
    runWorkerLoop p d none fuel i = none ∧
    RunWorker p d none fuel = none ∧
    r = none ∧
    sigT.isSome = true := by
  have hnone := runWorkerLoop_noSignal_none p d hrun
  have hr : r = none := runWorkerLoop_result_none p d sigT hrun fuel i r evs hloop
  have hsig : sigT.isSome = true := by
    rcases runWorkerLoop_exit_reason p d sigT fuel i r evs hloop with ⟨e, he⟩ | ⟨t, ht⟩
    · rw [hr] at he; exact absurd he (by simp)
    · rw [ht]; rfl
  exact ⟨hnone fuel i,
    RunWorker_loop_stuck p d fuel none ievs hpi (hnone fuel 0), hr, hsig⟩

/-- Witness for the C10 theorem at the concrete unit pForever: with a
signal during iteration 0 the loop exits softly after one iteration;
with no signal it has not exited within fuel 4, and RunWorker has not
returned. -/
theorem worker_loop_unbounded_witness :
    runWorkerLoop pForever 9 none 4 0 = none ∧
    RunWorker pForever 9 none 4 = none ∧
    (none : Option GoError) = none ∧
    (some 0 : Option Nat).isSome = true :=
  worker_loop_unbounded pForever 9 4 0 (some 0) none
    [Event.runCall 0 (loopCtx 9)] [] rfl (fun j => rfl) rfl

end Mproc
